import Mathlib

/-!
Verification development for the ingestion-and-analysis pipeline of the
`backend/app` package (security sanitizer / validators, text analytics,
n8n record assembly).  Python string values are embedded as `String` /
`List Char`; Python regular expressions from the source are embedded as
sequences of literals and single-character classes (every pattern in the
source has this shape), with Python `re` leftmost / backtracking-priority
match semantics.  Unicode-sensitive pieces (`\s`, `\w`, `str.lower`,
`str.strip`) are modelled on their ASCII behaviour, which is the range the
system declares for itself (ASCII-letter tokenization).  Python `float`
arithmetic is modelled by exact rationals / exact real comparison; every
comparison a theorem below depends on is robust (far from the rounding
error), and this modelling choice is noted where it occurs.
-/

/-- Characters matched by Python `\s` (ASCII range) and stripped by `str.strip()`. -/
def pyWs (c : Char) : Bool :=
  c = ' ' || c = '\t' || c = '\n' || c = '\r' || c = Char.ofNat 11 || c = Char.ofNat 12

/-- Characters matched by Python `\w` (ASCII range): letters, digits, underscore. -/
def pyWordChar (c : Char) : Bool :=
  c.isAlpha || c.isDigit || c = '_'

/-- Python `str.strip()` on a character list. -/
def pyStrip (l : List Char) : List Char :=
  ((l.dropWhile pyWs).reverse.dropWhile pyWs).reverse

/-- Python `str.lower()` (ASCII model). -/
def pyLower (l : List Char) : List Char := l.map Char.toLower

/-- Accumulator pass of `pySplitWs`; `cur` is the reversed current token. -/
def pySplitWsAux (cur : List Char) (l : List Char) : List (List Char) :=
  match l with
  | [] => if cur.isEmpty then [] else [cur.reverse]
  | c :: rest =>
    if pyWs c then
      if cur.isEmpty then pySplitWsAux [] rest
      else cur.reverse :: pySplitWsAux [] rest
    else pySplitWsAux (c :: cur) rest

/-- Python no-argument `str.split()`: maximal runs of non-whitespace characters. -/
def pySplitWs (l : List Char) : List (List Char) :=
  pySplitWsAux [] l

/-- Single-character classes appearing in the source regular expressions. -/
inductive CClass where
  | anyC : CClass
  | wsC : CClass
  | wordC : CClass
  | notC : Char → CClass
deriving DecidableEq, Repr

def CClass.test : CClass → Char → Bool
  | .anyC, _ => true
  | .wsC, c => pyWs c
  | .wordC, c => pyWordChar c
  | .notC d, c => c ≠ d

/-- Items of an embedded regular expression: a literal character (matched
case-insensitively, as every use in the source passes `re.IGNORECASE` or is
case-independent), one character of a class, a greedy star over a class, or a
lazy star over a class.  `X+` is embedded as `one X, star X`.  Every dangerous
pattern, the tag-stripping pattern and the whitespace pattern of the source
have this literal/class/star sequence shape. -/
inductive RItem where
  | lit : Char → RItem
  | one : CClass → RItem
  | star : CClass → RItem
  | lazyStar : CClass → RItem
deriving DecidableEq, Repr

/-- Case-insensitive character comparison (ASCII model of `re.IGNORECASE`). -/
def eqCI (a b : Char) : Bool := a.toLower = b.toLower

/-- Length of the maximal run of characters of class `k` at the head of `s`. -/
def runLen (k : CClass) : List Char → Nat
  | [] => 0
  | c :: rest => if k.test c then runLen k rest + 1 else 0

/-- Star-offset candidate lists: greedy tries the longest run first,
lazy tries the empty match first (Python backtracking priority). -/
def greedyOffsets (k : CClass) (s : List Char) : List Nat :=
  (List.range (runLen k s + 1)).reverse

def lazyOffsets (k : CClass) (s : List Char) : List Nat :=
  List.range (runLen k s + 1)

/-- All lengths of text that the item sequence `p` can consume at the head of
`s`, in Python backtracking priority order.  The head of the list is the
length Python's `re` engine uses for a match anchored here. -/
def matchLens : List RItem → List Char → List Nat
  | [], _ => [0]
  | .lit _ :: _, [] => []
  | .lit c :: rest, a :: s =>
    if eqCI a c then (matchLens rest s).map (· + 1) else []
  | .one _ :: _, [] => []
  | .one k :: rest, a :: s =>
    if k.test a then (matchLens rest s).map (· + 1) else []
  | .star k :: rest, s =>
    ((greedyOffsets k s).map
      (fun j => (matchLens rest (s.drop j)).map (· + j))).flatten
  | .lazyStar k :: rest, s =>
    ((lazyOffsets k s).map
      (fun j => (matchLens rest (s.drop j)).map (· + j))).flatten

/-- Python match length at the head of `s` (`re.match`-at-position semantics). -/
def pyMatchLen (p : List RItem) (s : List Char) : Option Nat :=
  (matchLens p s).head?

/-- Leftmost match of `p` in `s` starting at offset `pos` or later:
returns `(absolute position, length)` (`re.search` semantics). -/
def findMatchAux (p : List RItem) : List Char → Nat → Option (Nat × Nat)
  | [], pos => (pyMatchLen p []).map (fun n => (pos, n))
  | c :: t, pos =>
    match pyMatchLen p (c :: t) with
    | some n => some (pos, n)
    | none => findMatchAux p t (pos + 1)

/-- Whether `p` matches anywhere in `s` (`re.search` is not `None`). -/
def containsMatch (p : List RItem) (s : List Char) : Bool :=
  (findMatchAux p s 0).isSome

/-- Python `re.sub(p, rep, s)`: replace every non-overlapping leftmost match.
No pattern of the source can match the empty string (each begins with a
literal or a mandatory character class); a zero-length match terminates the
scan unchanged, which is never exercised. -/
def subPatF (fuel : Nat) (p : List RItem) (rep : List Char) (s : List Char) : List Char :=
  match fuel with
  | 0 => s
  | fuel + 1 =>
    match s with
    | [] => []
    | c :: cs =>
      match findMatchAux p (c :: cs) 0 with
      | none => c :: cs
      | some (i, n) =>
        if n = 0 then c :: cs
        else (c :: cs).take i ++ rep ++ subPatF fuel p rep ((c :: cs).drop (i + n))

def subPat (p : List RItem) (rep : List Char) (s : List Char) : List Char :=
  subPatF s.length p rep s

/-- Literal-character item sequence for a plain string of a pattern. -/
def lits (s : String) : List RItem := s.data.map RItem.lit

/-- Embedding of a `+` quantifier over a class: one mandatory character, then a greedy run. -/
def plusC (k : CClass) : List RItem := [RItem.one k, RItem.star k]

def backtickChar : Char := Char.ofNat 96
def lbraceChar : Char := Char.ofNat 123
def rbraceChar : Char := Char.ofNat 125
def squoteChar : Char := Char.ofNat 39

/-- SecurityValidator.DANGEROUS_PATTERNS, in source order (security.py lines 18-63).
Each Python regex is transcribed item by item; `[\s\S]` is `anyC`, `\s` is `wsC`,
`\w` is `wordC`, `[^x]` is `notC x`; `*?` is a lazy star. -/
def DANGEROUS_PATTERNS : List (List RItem) :=
  [ -- r'<script[\s\S]*?</script>'
    lits "<script" ++ [RItem.lazyStar CClass.anyC] ++ lits "</script>",
    -- r'<iframe[\s\S]*?</iframe>'
    lits "<iframe" ++ [RItem.lazyStar CClass.anyC] ++ lits "</iframe>",
    -- r'javascript:[\s\S]*'
    lits "javascript:" ++ [RItem.star CClass.anyC],
    -- r'vbscript:[\s\S]*'
    lits "vbscript:" ++ [RItem.star CClass.anyC],
    -- r'on\w+\s*=[\s\S]*'  (any event handler)
    lits "on" ++ plusC CClass.wordC ++ [RItem.star CClass.wsC, RItem.lit '=', RItem.star CClass.anyC],
    -- r'alert\s*\('
    lits "alert" ++ [RItem.star CClass.wsC, RItem.lit '('],
    -- r'eval\s*\('
    lits "eval" ++ [RItem.star CClass.wsC, RItem.lit '('],
    -- r'document\.'
    lits "document.",
    -- r'union\s+select[\s\S]*'
    lits "union" ++ plusC CClass.wsC ++ lits "select" ++ [RItem.star CClass.anyC],
    -- r'drop\s+table[\s\S]*'
    lits "drop" ++ plusC CClass.wsC ++ lits "table" ++ [RItem.star CClass.anyC],
    -- r'delete\s+from[\s\S]*'
    lits "delete" ++ plusC CClass.wsC ++ lits "from" ++ [RItem.star CClass.anyC],
    -- r'insert\s+into[\s\S]*'
    lits "insert" ++ plusC CClass.wsC ++ lits "into" ++ [RItem.star CClass.anyC],
    -- r'update\s+[\s\S]*\s+set'
    lits "update" ++ plusC CClass.wsC ++ [RItem.star CClass.anyC] ++ plusC CClass.wsC ++ lits "set",
    -- r'exec\s*\([\s\S]*\)'
    lits "exec" ++ [RItem.star CClass.wsC, RItem.lit '(', RItem.star CClass.anyC, RItem.lit ')'],
    -- r'execute\s*\([\s\S]*\)'
    lits "execute" ++ [RItem.star CClass.wsC, RItem.lit '(', RItem.star CClass.anyC, RItem.lit ')'],
    -- r'xp_cmdshell'
    lits "xp_cmdshell",
    -- r'\|\s*nc\s[\s\S]*'
    [RItem.lit '|', RItem.star CClass.wsC] ++ lits "nc" ++ [RItem.one CClass.wsC, RItem.star CClass.anyC],
    -- r'\|\s*netcat\s[\s\S]*'
    [RItem.lit '|', RItem.star CClass.wsC] ++ lits "netcat" ++ [RItem.one CClass.wsC, RItem.star CClass.anyC],
    -- r';\s*rm\s[\s\S]*'
    [RItem.lit ';', RItem.star CClass.wsC] ++ lits "rm" ++ [RItem.one CClass.wsC, RItem.star CClass.anyC],
    -- r';\s*curl\s[\s\S]*'
    [RItem.lit ';', RItem.star CClass.wsC] ++ lits "curl" ++ [RItem.one CClass.wsC, RItem.star CClass.anyC],
    -- r';\s*wget\s[\s\S]*'
    [RItem.lit ';', RItem.star CClass.wsC] ++ lits "wget" ++ [RItem.one CClass.wsC, RItem.star CClass.anyC],
    -- r'`[^`]*`'
    [RItem.lit backtickChar, RItem.star (CClass.notC backtickChar), RItem.lit backtickChar],
    -- r'\$\([^)]*\)'
    [RItem.lit '$', RItem.lit '(', RItem.star (CClass.notC ')'), RItem.lit ')'],
    -- r'cat\s+/etc/'
    lits "cat" ++ plusC CClass.wsC ++ lits "/etc/",
    -- r'\.\./'
    [RItem.lit '.', RItem.lit '.', RItem.lit '/'],
    -- r'\.\.\\'
    [RItem.lit '.', RItem.lit '.', RItem.lit '\\'],
    -- r'\{\{[^}]*\}\}'
    [RItem.lit lbraceChar, RItem.lit lbraceChar, RItem.star (CClass.notC rbraceChar),
      RItem.lit rbraceChar, RItem.lit rbraceChar],
    -- r'\{%[^%]*%\}'
    [RItem.lit lbraceChar, RItem.lit '%', RItem.star (CClass.notC '%'),
      RItem.lit '%', RItem.lit rbraceChar],
    -- r'\{\$[^}]*\}'
    [RItem.lit lbraceChar, RItem.lit '$', RItem.star (CClass.notC rbraceChar),
      RItem.lit rbraceChar],
    -- r'<img[\s\S]*?onerror[\s\S]*?>'
    lits "<img" ++ [RItem.lazyStar CClass.anyC] ++ lits "onerror" ++
      [RItem.lazyStar CClass.anyC, RItem.lit '>'],
    -- r'<svg[\s\S]*?onload[\s\S]*?>'
    lits "<svg" ++ [RItem.lazyStar CClass.anyC] ++ lits "onload" ++
      [RItem.lazyStar CClass.anyC, RItem.lit '>'],
    -- r'data:text/html[\s\S]*'
    lits "data:text/html" ++ [RItem.star CClass.anyC],
    -- r'data:image/svg\+xml[\s\S]*'
    lits "data:image/svg+xml" ++ [RItem.star CClass.anyC] ]

/-- Replacement marker used by `sanitize_text`. -/
def filteredMarker : List Char := "[FILTERED]".data

/-- Pattern `r'<[^>]+>'` used to strip HTML tags in non-HTML mode. -/
def tagPat : List RItem :=
  [RItem.lit '<'] ++ plusC (CClass.notC '>') ++ [RItem.lit '>']

/-- Pattern `r'\s+'` used to normalize whitespace. -/
def wsPat : List RItem := plusC CClass.wsC

/-- Python `html.escape(text, quote=True)` as a character map; the sequential
`str.replace` calls of the stdlib implementation are equivalent to this map
because no replacement string contains a character replaced by a later step. -/
def escChar (c : Char) : List Char :=
  if c = '&' then "&amp;".data
  else if c = '<' then "&lt;".data
  else if c = '>' then "&gt;".data
  else if c = '"' then "&quot;".data
  else if c = squoteChar then ("&#x27;").data
  else [c]

def htmlEscape (l : List Char) : List Char :=
  (l.map escChar).flatten

/-- Entity recognition for the model of `html.unescape` on the core entity
table relevant to this code base (`lt`, `gt`, `amp`, `quot`, `apos`, `#x27`,
`#39`); other `&` sequences are left untouched, and no theorem below depends
on entities outside this table.  Returns the decoded character and the number
of characters it consumes after the ampersand. -/
def entityAfterAmp (l : List Char) : Option (Char × Nat) :=
  if l.take 3 = "lt;".data then some ('<', 3)
  else if l.take 3 = "gt;".data then some ('>', 3)
  else if l.take 4 = "amp;".data then some ('&', 4)
  else if l.take 5 = "quot;".data then some ('"', 5)
  else if l.take 5 = "apos;".data then some (squoteChar, 5)
  else if l.take 5 = "#x27;".data then some (squoteChar, 5)
  else if l.take 4 = "#39;".data then some (squoteChar, 4)
  else none

def htmlUnescapeF : Nat → List Char → List Char
  | 0, l => l
  | _, [] => []
  | fuel + 1, c :: rest =>
    if c = '&' then
      match entityAfterAmp rest with
      | some (d, n) => d :: htmlUnescapeF fuel (rest.drop n)
      | none => c :: htmlUnescapeF fuel rest
    else c :: htmlUnescapeF fuel rest

def htmlUnescape (l : List Char) : List Char :=
  htmlUnescapeF l.length l

/-- Python `text.replace('\r\n', '\n')`. -/
def replaceCRLF : List Char → List Char
  | [] => []
  | '\r' :: '\n' :: rest => '\n' :: replaceCRLF rest
  | c :: rest => c :: replaceCRLF rest

/-- SecurityValidator.sanitize_text (security.py lines 71-105) on the
character list of an input that is already a string.  Steps, in source order:
drop NUL bytes, normalize CRLF, escape or strip/unescape HTML depending on
`allow_html`, replace every dangerous pattern by `[FILTERED]`, collapse
whitespace runs to single spaces and strip. -/
def sanitizeList (l : List Char) (allow_html : Bool) : List Char :=
  let t1 := replaceCRLF (l.filter (fun c => c ≠ Char.ofNat 0))
  let t2 := if allow_html then htmlEscape t1 else htmlUnescape (subPat tagPat [] t1)
  let t3 := DANGEROUS_PATTERNS.foldl (fun acc p => subPat p filteredMarker acc) t2
  pyStrip (subPat wsPat [' '] t3)

/-- SecurityValidator.sanitize_text on `String`. -/
def sanitize_text (s : String) (allow_html : Bool) : String :=
  String.mk (sanitizeList s.data allow_html)

/-- sanitize_for_processing (security.py lines 327-338). -/
def sanitize_for_processing (s : String) : String :=
  sanitize_text s true

/-- Tokenizer `re.findall(r'\b[a-zA-Z]+\b', s)`: maximal ASCII-letter runs whose
neighbours are not word characters (so a run touching a digit or underscore is
rejected, exactly as `\b` requires).  `prevWord` records whether the character
immediately before the current position is a word character. -/
def wordTokensAux (prevWord : Bool) (cur : List Char) (l : List Char) : List (List Char) :=
  match l with
  | [] => if cur.isEmpty then [] else [cur.reverse]
  | c :: rest =>
    if c.isAlpha then
      if cur.isEmpty then
        if prevWord then wordTokensAux true [] rest
        else wordTokensAux true [c] rest
      else wordTokensAux true (c :: cur) rest
    else
      if cur.isEmpty then wordTokensAux (pyWordChar c) [] rest
      else if pyWordChar c then wordTokensAux true [] rest
      else cur.reverse :: wordTokensAux false [] rest

def wordTokens (l : List Char) : List String :=
  (wordTokensAux false [] l).map String.mk

/-- get_extended_stop_words (text_processor.py lines 215-254), transcribed
entry for entry (the source's set literal contains a few repeated entries;
repetition does not change membership). -/
def get_extended_stop_words : List String :=
  [ "the", "and", "for", "are", "but", "not", "you", "all", "can", "had",
    "her", "was", "one", "our", "out", "day", "get", "has", "him", "his",
    "how", "man", "new", "now", "old", "see", "two", "way", "who", "boy",
    "did", "its", "let", "put", "say", "she", "too", "use", "that", "with",
    "have", "this", "will", "your", "from", "they", "know", "want", "been",
    "good", "much", "some", "time", "very", "when", "come", "here", "just",
    "like", "long", "make", "many", "over", "such", "take", "than", "them",
    "well", "were", "what",
    "also", "after", "back", "other", "more", "most", "first", "last",
    "each", "which", "there", "would", "could", "should", "about", "into",
    "only", "think", "where", "being", "both", "during", "before", "after",
    "above", "below", "between", "through", "same", "different", "another",
    "without", "within", "still", "again", "against", "while", "since",
    "a", "an", "as", "at", "be", "by", "do", "he", "if", "in", "is", "it",
    "my", "no", "of", "on", "or", "so", "to", "up", "we", "me", "am",
    "said", "says", "going", "goes", "went", "come", "came", "made", "makes",
    "look", "looks", "looked", "give", "gives", "gave", "told", "tell",
    "asked", "ask", "find", "found", "left", "right", "start", "started",
    "stop", "stopped", "turn", "turned", "work", "worked", "play", "played", "quot",
    "year", "years", "month", "months", "week", "weeks", "today", "tomorrow",
    "yesterday", "always", "never", "often", "sometimes", "usually", "once",
    "twice", "three", "four", "five", "six", "seven", "eight", "nine", "ten" ]

/-- preprocess_text (text_processor.py lines 189-212). -/
def preprocess_text (text : String) (stop_words : List String) : List String :=
  (wordTokens (pyLower text.data)).filter (fun w =>
    w.length ≥ 3 && !(stop_words.contains w) &&
    !(w.data.all Char.isDigit) && w.length ≤ 20)

def isSentenceDelim (c : Char) : Bool := c = '.' || c = '!' || c = '?'

/-- Accumulator pass of `splitDelims`: `inRun` records that the previous
character was a delimiter (a run of delimiters is a single separator), `cur`
is the reversed current piece. -/
def splitDelimsAux (inRun : Bool) (cur : List Char) (l : List Char) : List (List Char) :=
  match l with
  | [] => [cur.reverse]
  | c :: rest =>
    if isSentenceDelim c then
      if inRun then splitDelimsAux true [] rest
      else cur.reverse :: splitDelimsAux true [] rest
    else splitDelimsAux false (c :: cur) rest

/-- Python `re.split(r'[.!?]+', text)`. -/
def splitDelims (l : List Char) : List (List Char) :=
  splitDelimsAux false [] l

/-- generate_summary (text_processor.py lines 10-30). -/
def generate_summary (text : String) (max_sentences : Nat := 3) : String :=
  if text.data = [] || pyStrip text.data = [] then ""
  else
    let sentences := ((splitDelims text.data).map pyStrip).filter (fun s => s ≠ [])
    if sentences.length ≤ max_sentences then
      String.intercalate ". " (sentences.map String.mk)
    else
      String.intercalate ". " ((sentences.take max_sentences).map String.mk) ++ "..."

/-- First-seen-order deduplication: the insertion order of a Python
`Counter` / `dict` built from a list (CPython dicts preserve insertion). -/
def dedupFSAux (seen : List String) : List String → List String
  | [] => []
  | a :: l =>
    if seen.contains a then dedupFSAux seen l
    else a :: dedupFSAux (seen ++ [a]) l

def dedupFS (l : List String) : List String :=
  dedupFSAux [] l

/-- Items of `Counter(l)` in insertion order with their multiplicities. -/
def countsFS (l : List String) : List (String × Nat) :=
  (dedupFS l).map (fun w => (w, l.count w))

/-- TF-IDF scores of extract_keywords.  The source computes Python floats;
`log c r` represents the exact real `c * ln r` (the `doc_freq > 0` branch:
`c` is the TF times boosts, `r` is `num_sentences / doc_freq`), and `plain q`
represents the raw TF of the `doc_freq = 0` branch, which is unreachable
because every counted token lies inside some sentence piece. -/
inductive TScore where
  | log : ℚ → ℚ → TScore
  | plain : ℚ → TScore
deriving DecidableEq, Repr

/-- Multiplication of a score by a rational boost. -/
def TScore.scale : TScore → ℚ → TScore
  | .log c r, q => .log (c * q) r
  | .plain p, q => .plain (p * q)

/-- Exact comparison of two scores, modelling the Python float comparison.
For the live values `c, c2 > 0` and `r, r2 ≥ 1`, `c * ln r ≤ c2 * ln r2` iff
`r ^ (c.num * c2.den) ≤ r2 ^ (c2.num * c.den)` (clearing the positive
denominators and exponentiating).  The mixed cases cannot arise (only `log`
scores are ever built, since document frequency is at least 1). -/
def TScore.le : TScore → TScore → Bool
  | .log c r, .log c2 r2 =>
    r ^ ((c.num * (c2.den : Int)).toNat) ≤ r2 ^ ((c2.num * (c.den : Int)).toNat)
  | .plain a, .plain b => a ≤ b
  | .plain _, .log _ _ => true
  | .log _ _, .plain _ => false

def TScore.lt (a b : TScore) : Bool := TScore.le a b && !(TScore.le b a)

/-- Stable insertion preserving the order of equal keys (`ltB y x = false`
keeps `y` in front), so that `sortDescBy` models Python's stable
`sorted(..., reverse=True)` / `list.sort(..., reverse=True)`. -/
def insertDescBy {α : Type} (ltB : α → α → Bool) (x : α) : List α → List α
  | [] => [x]
  | y :: ys => if ltB y x then x :: y :: ys else y :: insertDescBy ltB x ys

def sortDescBy {α : Type} (ltB : α → α → Bool) (l : List α) : List α :=
  l.foldl (fun acc x => insertDescBy ltB x acc) []

/-- extract_keywords (text_processor.py lines 33-104), parametrized by
`setOrder`, the iteration order of the Python `set` in the
`len(words) < 10` fallback branch (`list(set(words))`): CPython enumerates a
string set in an order that depends on the per-process hash seed, so the
order is an input of the model; `setOrder` is meaningful on the deduplicated
word list it is applied to and is a permutation of it. -/
def extract_keywords_with (setOrder : List String → List String)
    (text : String) (max_keywords : Nat := 15) : List String :=
  if (pyStrip text.data).length < 50 then []
  else
    let stop_words := get_extended_stop_words
    let words := preprocess_text text stop_words
    if words.length < 10 then (setOrder (dedupFS words)).take max_keywords
    else
      let word_freq := countsFS words
      let total_words : ℚ := (words.length : ℚ)
      let sentences := splitDelims text.data
      let sentencesTok := sentences.map (fun s =>
        preprocess_text (String.mk (pyLower s)) stop_words)
      let num_sentences := (sentences.filter (fun s => pyStrip s ≠ [])).length
      let text_words := words.take 100
      let boosted : List (String × TScore) := word_freq.filterMap (fun wf =>
        let w := wf.1
        let freq := wf.2
        if freq ≥ 2 || w.length > 6 then
          let tf : ℚ := (freq : ℚ) / total_words
          let df := (sentencesTok.filter (fun ts => ts.contains w)).length
          let score : TScore :=
            if df > 0 then TScore.log tf ((num_sentences : ℚ) / (df : ℚ))
            else TScore.plain tf
          let length_boost : ℚ := if w.length > 4 then min ((w.length : ℚ) / 6) 2 else 1
          let position_boost : ℚ := if text_words.contains w then 6 / 5 else 1
          some (w, (score.scale length_boost).scale position_boost)
        else none)
      ((sortDescBy (fun a b => TScore.lt a.2 b.2) boosted).take max_keywords).map (·.1)

/-- extract_keywords with the insertion-order enumeration of the fallback set
(one possible hash-seed outcome; see the C7 theorems). -/
def extract_keywords (text : String) (max_keywords : Nat := 15) : List String :=
  extract_keywords_with (fun l => l) text max_keywords

/-- Index-length pairs of the candidate spans of a sentence of `n` tokens:
`for i in range(n - 1): for length in [2, 3, 4]: if i + length <= n` in
iteration order. -/
def spanIdxs (n : Nat) : List (Nat × Nat) :=
  ((List.range (n - 1)).map (fun i =>
    ([2, 3, 4].filterMap (fun len => if i + len ≤ n then some (i, len) else none)))).flatten

/-- Token lists of the qualifying sentences of extract_key_phrases: sentences
whose stripped length is at least 20, tokenized by the `\b[a-zA-Z]+\b` findall
on the lowered stripped sentence. -/
def qualSentenceTok (text : String) : List (List String) :=
  (splitDelims text.data).filterMap (fun s =>
    let st := pyStrip s
    if st.length < 20 then none else some (wordTokens (pyLower st)))

/-- Acceptance test of extract_key_phrases (text_processor.py lines 145-158)
for the token span `pw` of declared length `len`: contains a keyword, has at
least `max(1, len // 2)` non-stop tokens, and does not start or end with a
stop word. -/
def spanOk (kw stop : List String) (pw : List String) (len : Nat) : Bool :=
  pw.any (fun w => kw.contains w) &&
  (pw.countP (fun w => !(stop.contains w)) ≥ max 1 (len / 2)) &&
  !(stop.contains (pw.headD "")) && !(stop.contains (pw.getLastD ""))

/-- One step of the candidate-pool loop: join the span, and append it when it
passes `spanOk`, is longer than 8 characters, and is not already pooled. -/
def poolAddSpan (kw stop : List String) (ws : List String)
    (acc : List String) (il : Nat × Nat) : List String :=
  let pw := (ws.drop il.1).take il.2
  let ph := String.intercalate " " pw
  if spanOk kw stop pw il.2 && ph.length > 8 && !(acc.contains ph) then acc ++ [ph]
  else acc

/-- Candidate-phrase pool of extract_key_phrases (the `phrases` list built by
text_processor.py lines 131-162), given the keyword list. -/
def phrasePool (kw stop : List String) (text : String) : List String :=
  (qualSentenceTok text).foldl
    (fun acc ws => (spanIdxs ws.length).foldl (poolAddSpan kw stop ws) acc) []

/-- Every span occurrence that passes the acceptance test and the length-8
test, document-wide and with duplicates kept: the occurrences that the
specification's document-wide frequency counts. -/
def phraseEvents (kw stop : List String) (text : String) : List String :=
  ((qualSentenceTok text).map (fun ws =>
    (spanIdxs ws.length).filterMap (fun il =>
      let pw := (ws.drop il.1).take il.2
      let ph := String.intercalate " " pw
      if spanOk kw stop pw il.2 && ph.length > 8 then some ph else none))).flatten

/-- Scored-phrase list of extract_key_phrases (text_processor.py lines
164-182): frequencies are taken over the (already deduplicated) pool.  The
source computes `keyword_density = kc / len`, `base = freq * density`,
`length_bonus = 1 + (len - 2) * 0.1` and `final = base * length_bonus` in
floating point; the exact rational value of `final` is
`freq * kc * (len + 8) / (10 * len)`, carried here as the explicit
numerator/denominator pair, and the gate `density >= 0.5` is the exact
`2 * kc >= len`.  A phrase is kept iff `freq >= 2 or density >= 0.5`. -/
def scoredPhrases (kw stop : List String) (text : String) : List (String × (Nat × Nat)) :=
  (countsFS (phrasePool kw stop text)).filterMap (fun pf =>
    let pw := (pySplitWs pf.1.data).map String.mk
    let kc := pw.countP (fun w => kw.contains w)
    if pf.2 ≥ 2 || 2 * kc ≥ pw.length then
      some (pf.1, (pf.2 * kc * (pw.length + 8), 10 * pw.length))
    else none)

/-- Exact comparison of the rational values `a.1 / a.2 < b.1 / b.2` of two
scored phrases (denominators are positive), modelling the float comparison
of the source's sort key. -/
def fracLt (a b : Nat × Nat) : Bool := a.1 * b.2 < b.1 * a.2

/-- extract_key_phrases (text_processor.py lines 107-186). -/
def extract_key_phrases (text : String) (max_phrases : Nat := 8) : List String :=
  if (pyStrip text.data).length < 100 then []
  else
    let stop_words := get_extended_stop_words
    let keywords := extract_keywords text 20
    ((sortDescBy (fun a b => fracLt a.2 b.2)
      (scoredPhrases keywords stop_words text)).take max_phrases).map (·.1)

/-- Errors of the genuinely partial Python operations reachable from the
validation pipeline: attribute access on a value of the wrong type, and
`max()` of an empty sequence.  The totality claim (C2) states that these
branches are unreachable. -/
inductive PyErr where
  | attributeError : String → PyErr
  | valueError : String → PyErr
deriving DecidableEq, Repr

/-- Python values that can reach the validators: `None`, `str`, `int`, `bool`.
The claims quantify over well-typed but arbitrarily malformed inputs; these
constructors cover the shapes the tests and the claims name. -/
inductive PyVal where
  | vNone : PyVal
  | vStr : String → PyVal
  | vInt : Int → PyVal
  | vBool : Bool → PyVal
deriving DecidableEq, Repr

/-- Python truthiness of the embedded values. -/
def pyTruthy : PyVal → Bool
  | .vNone => false
  | .vStr s => !s.isEmpty
  | .vInt n => n ≠ 0
  | .vBool b => b

def isStrV : PyVal → Bool
  | .vStr _ => true
  | _ => false

/-- Python `str(v)` for the embedded values. -/
def pyStrCoerce : PyVal → String
  | .vNone => "None"
  | .vStr s => s
  | .vInt n => toString n
  | .vBool b => if b then "True" else "False"

/-- A string-method receiver: raises `AttributeError` unless the value is a
`str` (the partiality that the guards of the source make unreachable). -/
def asStrE : PyVal → Except PyErr String
  | .vStr s => .ok s
  | _ => .error (.attributeError "value has no string methods")

/-- Python `max()` over a list of counts: raises `ValueError` on an empty
sequence (guarded in the source by `len(words) > 20`). -/
def pyMaxE : List Nat → Except PyErr Nat
  | [] => .error (.valueError "max() arg is an empty sequence")
  | a :: t => .ok (t.foldl max a)

/-- SecurityValidator.SUSPICIOUS_DOMAINS (security.py lines 66-69). -/
def SUSPICIOUS_DOMAINS : List String :=
  ["bit.ly", "tinyurl.com", "t.co", "goo.gl", "ow.ly",
   "clickjacking.com", "phishing.com", "malware.com"]

def isAlnumAscii (c : Char) : Bool := c.isAlpha || c.isDigit

/-- Split on literal dots (for the hostname grammar). -/
def splitOnDot (l : List Char) : List (List Char) :=
  match l with
  | [] => [[]]
  | c :: rest =>
    if c = '.' then [] :: splitOnDot rest
    else
      match splitOnDot rest with
      | [] => [[c]]
      | h :: t => (c :: h) :: t

/-- One label of the hostname grammar
`[a-zA-Z0-9]([a-zA-Z0-9\-]{0,61}[a-zA-Z0-9])?`: 1 to 63 characters,
alphanumeric at both ends, alphanumerics and hyphens between. -/
def labelOk (l : List Char) : Bool :=
  l.length ≥ 1 && l.length ≤ 63 &&
  isAlnumAscii (l.headD ' ') && isAlnumAscii (l.getLastD ' ') &&
  ((l.drop 1).dropLast.all (fun c => isAlnumAscii c || c = '-'))

/-- Full-string match of the domain regex of validate_domain (security.py
line 131): dot-separated labels.  `re.match` with a pattern ending in `$`
matches the whole (already stripped, hence newline-free) string. -/
def domainFormatOk (l : List Char) : Bool :=
  (splitOnDot l).all labelOk

/-- SecurityValidator.validate_domain (security.py lines 107-144). -/
def validate_domain (v : PyVal) : Except PyErr (Bool × String) :=
  if !(pyTruthy v) || !(isStrV v) then .ok (false, "Domain is required")
  else do
    let s ← asStrE v
    let domain := String.mk (pyStrip (pyLower s.data))
    if domain.length > 255 then .ok (false, "Domain too long (max 255 characters)")
    else if domain.length < 3 then .ok (false, "Domain too short")
    else if !(domainFormatOk domain.data) then .ok (false, "Invalid domain format")
    else if SUSPICIOUS_DOMAINS.contains domain then .ok (false, "Domain appears to be suspicious")
    else if DANGEROUS_PATTERNS.any (fun p => containsMatch p domain.data) then
      .ok (false, "Domain contains suspicious patterns")
    else .ok (true, "")

/-- SecurityValidator.validate_title (security.py lines 186-214). -/
def validate_title (v : PyVal) : Except PyErr (Bool × String) :=
  if !(pyTruthy v) || !(isStrV v) then .ok (false, "Title is required")
  else do
    let s ← asStrE v
    let title := String.mk (pyStrip s.data)
    if title.length > 500 then .ok (false, "Title too long (max 500 characters)")
    else if title.length < 3 then .ok (false, "Title too short (minimum 3 characters)")
    else if DANGEROUS_PATTERNS.any (fun p => containsMatch p title.data) then
      .ok (false, "Title contains suspicious patterns")
    else .ok (true, "")

/-- Characters of the class `[<>{}\[\]\\`$]` counted by the suspicious-ratio
check of validate_article_content. -/
def suspiciousChar (c : Char) : Bool :=
  c = '<' || c = '>' || c = lbraceChar || c = rbraceChar || c = '[' ||
  c = ']' || c = '\\' || c = backtickChar || c = '$'

/-- Characters of the class `[!@#$%^&*()_+=\[\]{};:"|<>?]` counted by the
spam heuristic. -/
def spamSpecialChar (c : Char) : Bool :=
  c = '!' || c = '@' || c = '#' || c = '$' || c = '%' || c = '^' || c = '&' ||
  c = '*' || c = '(' || c = ')' || c = '_' || c = '+' || c = '=' || c = '[' ||
  c = ']' || c = lbraceChar || c = rbraceChar || c = ';' || c = ':' ||
  c = '"' || c = '|' || c = '<' || c = '>' || c = '?'

/-- Spam phrase list of _detect_spam_patterns (security.py lines 313-317). -/
def SPAM_PHRASES : List String :=
  ["click here", "buy now", "limited time", "act now", "free money",
   "earn money fast", "work from home", "lose weight fast",
   "enlarge your", "nigerian prince", "lottery winner"]

/-- Python substring containment (`needle in hay`). -/
def containsSub (hay needle : List Char) : Bool :=
  match hay with
  | [] => needle.isEmpty
  | _ :: t => needle.isPrefixOf hay || containsSub t needle

/-- SecurityValidator._detect_spam_patterns (security.py lines 284-324).
The float thresholds `0.2` and `0.15` are modelled by the exact comparisons
`5 * max > len` and `20 * special > 3 * len`. -/
def detect_spam_patterns (s : String) : Except PyErr Bool := do
  let words := (pySplitWs (pyLower s.data)).map String.mk
  let rep ←
    if words.length > 20 then do
      let mx ← pyMaxE ((countsFS words).map (·.2))
      pure (decide (5 * mx > words.length))
    else pure false
  if rep then .ok true
  else
    let special := (s.data.filter spamSpecialChar).length
    if 20 * special > 3 * s.length then .ok true
    else
      let lowerS := pyLower s.data
      if (SPAM_PHRASES.filter (fun ph => containsSub lowerS ph.data)).length ≥ 2 then .ok true
      else .ok false

/-- SecurityValidator.validate_article_content (security.py lines 146-184).
The float threshold `0.1` is modelled by the exact `10 * count > len`. -/
def validate_article_content (v : PyVal) : Except PyErr (Bool × String) :=
  if !(pyTruthy v) || !(isStrV v) then .ok (false, "Article content is required")
  else do
    let s ← asStrE v
    let content := String.mk (pyStrip s.data)
    if content.length > 1000000 then .ok (false, "Article too long (max 1000000 characters)")
    else if content.length < 50 then .ok (false, "Article too short (minimum 50 characters)")
    else
      let suspicious := (content.data.filter suspiciousChar).length
      if 10 * suspicious > content.length then
        .ok (false, "Content contains too many suspicious characters")
      else do
        let spam ← detect_spam_patterns content
        if spam then .ok (false, "Content appears to be spam or auto-generated")
        else if (pySplitWs content.data).any (fun w => w.length > 100) then
          .ok (false, "Content contains suspiciously long words")
        else .ok (true, "")

/-- Top-level inputs of the dict-consuming entry points: `None`, a non-dict
value, or a dict restricted to the three keys the code reads
(`companyDomain`, `articleTitle`, `article`); other keys are never read. -/
inductive PyData where
  | pdNone : PyData
  | pdVal : PyVal → PyData
  | pdDict : Option PyVal → Option PyVal → Option PyVal → PyData
deriving DecidableEq, Repr

/-- SecurityValidator.comprehensive_validation (security.py lines 246-282). -/
def comprehensive_validation (d : PyData) : Except PyErr (Bool × List String) :=
  match d with
  | .pdDict g t a => do
    let domain := String.mk (pyStrip (pyStrCoerce (g.getD (.vStr ""))).data)
    let title := String.mk (pyStrip (pyStrCoerce (t.getD (.vStr ""))).data)
    let article := String.mk (pyStrip (pyStrCoerce (a.getD (.vStr ""))).data)
    let r1 ← validate_domain (.vStr domain)
    let r2 ← validate_title (.vStr title)
    let r3 ← validate_article_content (.vStr article)
    let errors :=
      (if r1.1 then [] else ["Domain validation failed: " ++ r1.2]) ++
      (if r2.1 then [] else ["Title validation failed: " ++ r2.2]) ++
      (if r3.1 then [] else ["Article validation failed: " ++ r3.2])
    .ok (errors.isEmpty, errors)
  | _ => .ok (false, ["Invalid data format"])

/-- SecurityValidator.sanitize_text on an arbitrary value: non-strings are
coerced by `str()` first, after which every operation is a total string
operation (the `asStrE` receiver check is the only potential failure). -/
def sanitize_textE (v : PyVal) (allow_html : Bool) : Except PyErr String := do
  let t : PyVal := if isStrV v then v else .vStr (pyStrCoerce v)
  let s ← asStrE t
  .ok (sanitize_text s allow_html)

/-- Whether a required field is treated as missing by validate_article_data:
absent, or blank after `str(...)` coercion and trimming. -/
def fieldMissing : Option PyVal → Bool
  | none => true
  | some v => (pyStrip (pyStrCoerce v).data).isEmpty

/-- The missing-field names collected by validate_article_data, in source
order companyDomain, articleTitle, article. -/
def missingFieldNames (g t a : Option PyVal) : List String :=
  [("companyDomain", g), ("articleTitle", t), ("article", a)].filterMap
    (fun fv => if fieldMissing fv.2 then some fv.1 else none)

/-- validate_article_data (data_formatter.py lines 67-99). -/
def validate_article_data (d : PyData) : Except PyErr (Bool × String) :=
  match d with
  | .pdNone => .ok (false, "No data provided")
  | .pdVal _ => .ok (false, "Invalid data format")
  | .pdDict g t a =>
    let missing := missingFieldNames g t a
    if missing.isEmpty then do
      let r ← comprehensive_validation (.pdDict g t a)
      if !r.1 then .ok (false, String.intercalate "; " r.2)
      else .ok (true, "")
    else .ok (false, "Missing required fields: " ++ String.intercalate ", " missing)

structure N8nMetadata where
  company_domain : String
  article_title : String
  processed_at : String
  article_length : Nat
  word_count : Nat
deriving DecidableEq, Repr

structure N8nContent where
  title : String
  body : String
  summary : String
  keywords : List String
  phrases : List String
deriving DecidableEq, Repr

structure WebhookMeta where
  word_count : Nat
  char_count : Nat
deriving DecidableEq, Repr

structure WebhookData where
  domain : String
  title : String
  content : String
  summary : String
  keywords : List String
  phrases : List String
  timestamp : String
  metadata : WebhookMeta
deriving DecidableEq, Repr

structure N8nPayload where
  metadata : N8nMetadata
  content : N8nContent
  webhook_data : WebhookData
deriving DecidableEq, Repr

/-- create_n8n_payload (data_formatter.py lines 10-64).  `current_time` is the
ISO-8601 timestamp `datetime.now(timezone.utc).isoformat()` taken from the
ambient clock, passed here as an explicit argument. -/
def create_n8n_payload (current_time : String)
    (company_domain article_title article : String) : N8nPayload :=
  let safe_article := sanitize_for_processing article
  let safe_title := sanitize_for_processing article_title
  let safe_domain := sanitize_for_processing company_domain
  let summary := generate_summary safe_article
  let keywords := extract_keywords safe_article
  let phrases := extract_key_phrases safe_article
  { metadata :=
      { company_domain := safe_domain
        article_title := safe_title
        processed_at := current_time
        article_length := article.length
        word_count := (pySplitWs article.data).length }
    content :=
      { title := safe_title
        body := safe_article
        summary := summary
        keywords := keywords
        phrases := phrases }
    webhook_data :=
      { domain := safe_domain
        title := safe_title
        content := safe_article
        summary := summary
        keywords := keywords
        phrases := phrases
        timestamp := current_time
        metadata :=
          { word_count := (pySplitWs article.data).length
            char_count := article.length } } }

/-- Summary algorithm exactly as the C8 claim words it (spec refinement side):
split on runs of sentence punctuation, trim, drop empties; join with a dot
separator, appending an ellipsis directly when truncating; blank input gives
the empty string. -/
def claimSummary (text : String) (maxSentences : Nat) : String :=
  if pyStrip text.data = [] then ""
  else
    let sentences := ((splitDelims text.data).map pyStrip).filter (fun s => s ≠ [])
    if sentences.length ≤ maxSentences then
      String.intercalate ". " (sentences.map String.mk)
    else
      String.intercalate ". " ((sentences.take maxSentences).map String.mk) ++ "..."

/-- Acceptance predicate exactly as the C4 claim words it: at least one
keyword token, at least `ceil(len / 2)` non-stop tokens (written
`(len + 1) / 2`), and non-stop first and last tokens. -/
def spanOkClaim (kw stop : List String) (pw : List String) (len : Nat) : Bool :=
  pw.any (fun w => kw.contains w) &&
  (pw.countP (fun w => !(stop.contains w)) ≥ (len + 1) / 2) &&
  !(stop.contains (pw.headD "")) && !(stop.contains (pw.getLastD ""))

/-- Failing input of C3: the four-token phrase `xy research xz xw` is accepted
in two distinct sentences, but the pool is deduplicated before counting. -/
def T3 : String :=
  "We go xy research xz xw at me to do. We go xy research xz xw at me to do. It is to be at my up on so do we go by me at it."

/-- Counterexample input of C4: the span `dog run` satisfies the claim's three
acceptance conditions but its joined length is 7, not more than 8. -/
def T4 : String :=
  "The dog run by me to it at so no we up on an as be. It is to be at my up on so do we go by me at it to be ok."

/-- Counterexample input of C7: three tokens survive preprocessing (fewer than
10), so `extract_keywords` returns `list(set(words))`, whose order is the set
iteration order. -/
def T7 : String :=
  "the dog sat by the cat at my up on an as be he if in is of or so to up we me am no"

/-- HTML-significant characters whose absence C10 asserts for escaped mode. -/
def htmlSpecial (c : Char) : Bool := c = '<' || c = '>' || c = '"' || c = squoteChar

/-- Whitespace shape of a sanitized string: every whitespace character is a
single space followed by non-whitespace (or the end). -/
def wsIsolated : List Char → Bool
  | [] => true
  | [c] => !(pyWs c) || c = ' '
  | a :: b :: t => ((!(pyWs a) || a = ' ') && !(pyWs a && pyWs b)) && wsIsolated (b :: t)

/-- No whitespace at either end. -/
def noEdgeWs (l : List Char) : Bool :=
  !(pyWs (l.headD 'x')) && !(pyWs (l.getLastD 'x'))

set_option maxRecDepth 40000

/-- C1: the specification asserts that for every input and both modes the
output of SecurityValidator.sanitize_text contains no substring matching any
DANGEROUS_PATTERNS entry.  The code violates it: patterns are substituted in
one ordered pass, so the `[FILTERED]` marker inserted for the later pattern
`\{\$[^}]*\}` completes a match of the earlier pattern `\{\{[^}]*\}\}`.
On the failing input below (written with `\x7b`/`\x7d` for braces) the
sanitizer returns a string that still matches a dangerous pattern, defeating
the function's stated purpose. -/
theorem C1_sanitizer_emits_dangerous_match :
    sanitize_text "\x7b\x7b \x7b$x\x7d \x7d\x7d" false = "\x7b\x7b [FILTERED] \x7d\x7d" ∧
    DANGEROUS_PATTERNS.any
      (fun p => containsMatch p (sanitize_text "\x7b\x7b \x7b$x\x7d \x7d\x7d" false).data) = true := by
  exact ⟨by decide, by decide⟩

/-- C5 counterexample: sanitize_text is not idempotent.  In escaped mode the
output for `"&"` is `"&amp;"`, and re-sanitizing that output re-escapes the
ampersand to `"&amp;amp;"`. -/
theorem C5_counterexample_not_idempotent :
    sanitize_text (sanitize_text "&" true) true ≠ sanitize_text "&" true ∧
    sanitize_text "&" true = "&amp;" ∧
    sanitize_text (sanitize_text "&" true) true = "&amp;amp;" := by
  exact ⟨by decide, by decide, by decide⟩

/-- Appending a span through poolAddSpan preserves distinctness of the pool
(the `phrase not in phrases` guard). -/
theorem poolAddSpan_nodup (kw stop ws : List String) (acc : List String)
    (il : Nat × Nat) (h : acc.Nodup) : (poolAddSpan kw stop ws acc il).Nodup := by
  unfold poolAddSpan
  dsimp only
  split
  · next hcond =>
    simp only [Bool.and_eq_true, Bool.not_eq_true'] at hcond
    have hmem : String.intercalate " " ((ws.drop il.1).take il.2) ∉ acc := by
      have := hcond.2
      simp at this
      exact this
    simp [List.nodup_append, h, hmem]
  · exact h

/-- A fold of poolAddSpan steps preserves distinctness. -/
theorem foldl_poolAddSpan_nodup (kw stop ws : List String) :
    ∀ (ils : List (Nat × Nat)) (acc : List String), acc.Nodup →
      (ils.foldl (poolAddSpan kw stop ws) acc).Nodup := by
  intro ils
  induction ils with
  | nil => intro acc h; exact h
  | cons il rest ih =>
    intro acc h
    exact ih _ (poolAddSpan_nodup kw stop ws acc il h)

/-- The candidate pool never contains a phrase string twice. -/
theorem phrasePool_nodup (kw stop : List String) (text : String) :
    (phrasePool kw stop text).Nodup := by
  unfold phrasePool
  generalize qualSentenceTok text = wss
  have main : ∀ (wss : List (List String)) (acc : List String), acc.Nodup →
      (wss.foldl (fun acc ws => (spanIdxs ws.length).foldl (poolAddSpan kw stop ws) acc) acc).Nodup := by
    intro wss
    induction wss with
    | nil => intro acc h; exact h
    | cons ws rest ih =>
      intro acc h
      exact ih _ (foldl_poolAddSpan_nodup kw stop ws _ acc h)
  exact main wss [] List.nodup_nil

/-- C3: the specification's phrase frequency counts every accepted occurrence
of a phrase across the whole document, and the gate is `freq >= 2` or
`density >= 0.5`.  The code instead counts over the already-deduplicated pool
(`Counter(phrases)` where `phrases` was built with `phrase not in phrases`),
so every counted frequency is 1 and the `freq >= 2` arm is dead code — the
code contradicts its own comment about phrases that appear multiple times.
The pool is provably duplicate-free for every input (first conjunct), and on
the failing input `T3` the phrase `"xy research xz xw"` is accepted twice
document-wide (second conjunct) yet its pool count is 1 (third conjunct), so
it is dropped from the ranking (fourth conjunct) although the claim's
document-wide frequency 2 admits it. -/
theorem C3_phrase_frequency_bug :
    (∀ (kw stop : List String) (text : String), (phrasePool kw stop text).Nodup) ∧
    (phraseEvents (extract_keywords T3 20) get_extended_stop_words T3).count "xy research xz xw" = 2 ∧
    (countsFS (phrasePool (extract_keywords T3 20) get_extended_stop_words T3)).lookup
      "xy research xz xw" = some 1 ∧
    "xy research xz xw" ∉ extract_key_phrases T3 8 := by
  exact ⟨phrasePool_nodup, by decide, by decide, by decide⟩

/-- C4 counterexample: the claim says a span is accepted as a candidate iff
conditions (a), (b), (c) hold.  The span `dog run` (positions 1-2 of the
first qualifying sentence of `T4`) satisfies all three conditions of the
claim, yet it is not a candidate: the code additionally requires the joined
phrase to be longer than 8 characters, and `"dog run"` has 7. -/
theorem C4_counterexample_short_phrase :
    (((qualSentenceTok T4).headD []).drop 1).take 2 = ["dog", "run"] ∧
    spanOkClaim (extract_keywords T4 20) get_extended_stop_words ["dog", "run"] 2 = true ∧
    ("dog run" : String).length = 7 ∧
    "dog run" ∉ phrasePool (extract_keywords T4 20) get_extended_stop_words T4 ∧
    "dog run" ∉ extract_key_phrases T4 8 := by
  exact ⟨by decide, by decide, by decide, by decide, by decide⟩

/-- C7 counterexample: in the `len(words) < 10` branch extract_keywords
returns `list(set(words))`, whose order is CPython's hash-seed-dependent set
iteration order.  Two admissible enumeration orders of the same set (here:
insertion order and its reverse — both permutations of the distinct surviving
tokens) give different output lists on `T7`, so the output list is not a
function of the text alone and no explicit secondary key fixes the order. -/
theorem C7_counterexample_set_order_dependence :
    extract_keywords_with (fun l => l.reverse) T7 15 ≠
      extract_keywords_with (fun l => l) T7 15 ∧
    (extract_keywords_with (fun l => l.reverse) T7 15).Perm
      (extract_keywords_with (fun l => l) T7 15) := by
  exact ⟨by decide, by decide⟩

theorem isOk_exists {ε α : Type} {e : Except ε α} (h : e.isOk = true) : ∃ r, e = .ok r := by
  cases e
  case error err => simp [Except.isOk, Except.toBool] at h
  case ok r => exact ⟨r, rfl⟩

theorem validate_domain_ok (v : PyVal) : (validate_domain v).isOk = true := by
  cases v
  case vNone => rfl
  case vInt n => simp [validate_domain, isStrV, Except.isOk, Except.toBool]
  case vBool b => simp [validate_domain, isStrV, Except.isOk, Except.toBool]
  case vStr s =>
    unfold validate_domain
    split
    · rfl
    · dsimp only [asStrE, Bind.bind, Except.bind]
      repeat' split
      all_goals rfl

theorem validate_title_ok (v : PyVal) : (validate_title v).isOk = true := by
  cases v
  case vNone => rfl
  case vInt n => simp [validate_title, isStrV, Except.isOk, Except.toBool]
  case vBool b => simp [validate_title, isStrV, Except.isOk, Except.toBool]
  case vStr s =>
    unfold validate_title
    split
    · rfl
    · dsimp only [asStrE, Bind.bind, Except.bind]
      repeat' split
      all_goals rfl

theorem detect_spam_ok (s : String) : (detect_spam_patterns s).isOk = true := by
  unfold detect_spam_patterns
  dsimp only [Bind.bind, Except.bind, Pure.pure, Except.pure]
  split
  · next hgt =>
    cases hw : (pySplitWs (pyLower s.data)).map String.mk with
    | nil =>
      rw [hw] at hgt
      simp at hgt
    | cons a t =>
      dsimp only [countsFS, dedupFS, dedupFSAux, List.contains, List.elem, List.map, pyMaxE]
      repeat' split
      all_goals rfl
  · repeat' split
    all_goals rfl

theorem validate_article_content_ok (v : PyVal) : (validate_article_content v).isOk = true := by
  cases v
  case vNone => rfl
  case vInt n => simp [validate_article_content, isStrV, Except.isOk, Except.toBool]
  case vBool b => simp [validate_article_content, isStrV, Except.isOk, Except.toBool]
  case vStr s =>
    unfold validate_article_content
    split
    · rfl
    · dsimp only [asStrE, Bind.bind, Except.bind]
      obtain ⟨br, hb⟩ := isOk_exists (detect_spam_ok (String.mk (pyStrip s.data)))
      rw [hb]
      dsimp only
      repeat' split
      all_goals rfl

theorem comprehensive_validation_ok (d : PyData) : (comprehensive_validation d).isOk = true := by
  cases d
  case pdNone => rfl
  case pdVal v => rfl
  case pdDict g t a =>
    unfold comprehensive_validation
    dsimp only [Bind.bind, Except.bind]
    obtain ⟨r1, h1⟩ := isOk_exists (validate_domain_ok
      (.vStr (String.mk (pyStrip (pyStrCoerce (g.getD (.vStr ""))).data))))
    rw [h1]
    dsimp only
    obtain ⟨r2, h2⟩ := isOk_exists (validate_title_ok
      (.vStr (String.mk (pyStrip (pyStrCoerce (t.getD (.vStr ""))).data))))
    rw [h2]
    dsimp only
    obtain ⟨r3, h3⟩ := isOk_exists (validate_article_content_ok
      (.vStr (String.mk (pyStrip (pyStrCoerce (a.getD (.vStr ""))).data))))
    rw [h3]
    rfl

theorem sanitize_textE_ok (v : PyVal) (b : Bool) : (sanitize_textE v b).isOk = true := by
  cases v
  all_goals rfl

theorem validate_article_data_ok (d : PyData) : (validate_article_data d).isOk = true := by
  cases d
  case pdNone => rfl
  case pdVal v => rfl
  case pdDict g t a =>
    unfold validate_article_data
    dsimp only
    split
    · dsimp only [Bind.bind, Except.bind]
      obtain ⟨r, h⟩ := isOk_exists (comprehensive_validation_ok (.pdDict g t a))
      rw [h]
      dsimp only
      split
      · rfl
      · rfl
    · rfl

/-- C2: validation and sanitization are total on every well-typed input —
`None`, non-strings, empty and whitespace-only strings, control characters
and mixed line endings included.  Each entry point is embedded in an `Except`
monad whose error branch models the genuinely partial Python operations
(string-method access on a non-string receiver, `max()` of an empty
sequence); the theorem states that every call returns `ok`, i.e. the error
branch is unreachable and nothing raises. -/
theorem C2_validation_total :
    (∀ v : PyVal, (validate_domain v).isOk = true) ∧
    (∀ v : PyVal, (validate_title v).isOk = true) ∧
    (∀ v : PyVal, (validate_article_content v).isOk = true) ∧
    (∀ d : PyData, (comprehensive_validation d).isOk = true) ∧
    (∀ d : PyData, (validate_article_data d).isOk = true) ∧
    (∀ (v : PyVal) (b : Bool), (sanitize_textE v b).isOk = true) :=
  ⟨validate_domain_ok, validate_title_ok, validate_article_content_ok,
   comprehensive_validation_ok, validate_article_data_ok, sanitize_textE_ok⟩

theorem validate_article_data_missing (g t a : Option PyVal)
    (h : missingFieldNames g t a ≠ []) :
    validate_article_data (.pdDict g t a) =
      .ok (false, "Missing required fields: " ++ String.intercalate ", " (missingFieldNames g t a)) := by
  unfold validate_article_data
  dsimp only
  have he : (missingFieldNames g t a).isEmpty = false := by
    cases hm : missingFieldNames g t a with
    | nil => exact absurd hm h
    | cons x xs => rfl
  simp [he]

/-- C6: when one or more of the three required fields is absent or blank
after trimming, validate_article_data rejects with the single reason string
listing exactly the absent-or-blank field names, comma-joined, in the order
companyDomain, articleTitle, article; the missing list is characterized
exactly (conjuncts 2 and 3), and the three per-field security checks are not
run: the result depends only on the missing-field pattern (conjunct 4). -/
theorem C6_missing_fields_short_circuit :
    ∀ (g t a : Option PyVal),
      missingFieldNames g t a ≠ [] →
      (validate_article_data (.pdDict g t a) =
        .ok (false, "Missing required fields: " ++
          String.intercalate ", " (missingFieldNames g t a)) ∧
       missingFieldNames g t a =
        (if fieldMissing g = true then ["companyDomain"] else []) ++
        (if fieldMissing t = true then ["articleTitle"] else []) ++
        (if fieldMissing a = true then ["article"] else []) ∧
       (∀ n, n ∈ missingFieldNames g t a ↔
         ((n = "companyDomain" ∧ fieldMissing g = true) ∨
          (n = "articleTitle" ∧ fieldMissing t = true) ∨
          (n = "article" ∧ fieldMissing a = true))) ∧
       (∀ (g2 t2 a2 : Option PyVal),
         missingFieldNames g2 t2 a2 = missingFieldNames g t a →
           validate_article_data (.pdDict g2 t2 a2) =
             validate_article_data (.pdDict g t a))) := by
  intro g t a h
  refine ⟨validate_article_data_missing g t a h, ?_, ?_, ?_⟩
  · unfold missingFieldNames
    cases hg : fieldMissing g <;> cases ht : fieldMissing t <;> cases ha : fieldMissing a <;>
      simp [List.filterMap, hg, ht, ha]
  · intro n
    unfold missingFieldNames
    cases hg : fieldMissing g <;> cases ht : fieldMissing t <;> cases ha : fieldMissing a <;>
      simp [List.filterMap, hg, ht, ha]
  · intro g2 t2 a2 heq
    rw [validate_article_data_missing g2 t2 a2 (by rw [heq]; exact h),
      validate_article_data_missing g t a h, heq]

/-- Witness for C6 at the empty record: all three names are listed. -/
theorem C6_missing_fields_short_circuit_witness :
    validate_article_data (.pdDict none none none) =
      .ok (false, "Missing required fields: companyDomain, articleTitle, article") := by
  have h := (C6_missing_fields_short_circuit none none none (by decide)).1
  rw [show ("Missing required fields: " ++
      String.intercalate ", " (missingFieldNames none none none)) =
      "Missing required fields: companyDomain, articleTitle, article" from by decide] at h
  exact h

/-- C8: generate_summary splits on runs of sentence punctuation, trims and
drops empty segments, joins with a dot-space separator, truncates to
`maxSentences` with a directly-appended ellipsis, returns the empty string on
blank input — stated as extensional equality with `claimSummary`, the
function transcribed from the claim's own wording — and produces the claim's
expected output on the four-sentence example. -/
theorem C8_generate_summary_spec :
    (∀ (text : String) (maxSentences : Nat),
      generate_summary text maxSentences = claimSummary text maxSentences) ∧
    generate_summary "This is the first sentence. This is the second sentence. This is the third sentence. This is the fourth sentence." 2 =
      "This is the first sentence. This is the second sentence..." := by
  constructor
  · intro t n
    unfold generate_summary claimSummary
    by_cases h : pyStrip t.data = []
    · simp [h]
    · have hd : ¬(t.data = []) := by
        intro he
        apply h
        rw [he]
        rfl
      simp [h, hd]
  · decide

/-- C9: in the Record built by create_n8n_payload the metadata lengths are
computed from the original unsanitized body argument (character count and
whitespace-token count), the content body and the delivery payload's content
hold the sanitized text, and the delivery payload duplicates the same domain,
title, summary, keywords, phrases, timestamp, word-count and char-count
values as the metadata/content blocks. -/
theorem C9_payload_fields :
    ∀ (ts domain title article : String),
      (create_n8n_payload ts domain title article).metadata.article_length = article.length ∧
      (create_n8n_payload ts domain title article).metadata.word_count =
        (pySplitWs article.data).length ∧
      (create_n8n_payload ts domain title article).content.body =
        sanitize_for_processing article ∧
      (create_n8n_payload ts domain title article).webhook_data.content =
        (create_n8n_payload ts domain title article).content.body ∧
      (create_n8n_payload ts domain title article).webhook_data.domain =
        (create_n8n_payload ts domain title article).metadata.company_domain ∧
      (create_n8n_payload ts domain title article).webhook_data.title =
        (create_n8n_payload ts domain title article).content.title ∧
      (create_n8n_payload ts domain title article).webhook_data.summary =
        (create_n8n_payload ts domain title article).content.summary ∧
      (create_n8n_payload ts domain title article).webhook_data.keywords =
        (create_n8n_payload ts domain title article).content.keywords ∧
      (create_n8n_payload ts domain title article).webhook_data.phrases =
        (create_n8n_payload ts domain title article).content.phrases ∧
      (create_n8n_payload ts domain title article).webhook_data.timestamp =
        (create_n8n_payload ts domain title article).metadata.processed_at ∧
      (create_n8n_payload ts domain title article).webhook_data.metadata.word_count =
        (create_n8n_payload ts domain title article).metadata.word_count ∧
      (create_n8n_payload ts domain title article).webhook_data.metadata.char_count =
        (create_n8n_payload ts domain title article).metadata.article_length := by
  intro ts domain title article
  exact ⟨rfl, rfl, rfl, rfl, rfl, rfl, rfl, rfl, rfl, rfl, rfl, rfl⟩

theorem mem_subPatF (p : List RItem) (rep : List Char) :
    ∀ (fuel : Nat) (s : List Char), ∀ x ∈ subPatF fuel p rep s, x ∈ rep ∨ x ∈ s := by
  intro fuel
  induction fuel with
  | zero => intro s x hx; exact Or.inr hx
  | succ n ih =>
    intro s x hx
    match s with
    | [] => exact Or.inr hx
    | c :: cs =>
      rw [subPatF] at hx
      revert hx
      split
      · intro hx; exact Or.inr hx
      · next i m heq =>
        split
        · intro hx; exact Or.inr hx
        · intro hx
          simp only [List.mem_append] at hx
          rcases hx with (hx | hx) | hx
          · exact Or.inr (List.mem_of_mem_take hx)
          · exact Or.inl hx
          · rcases ih _ x hx with h | h
            · exact Or.inl h
            · exact Or.inr (List.mem_of_mem_drop h)

theorem mem_subPat (p : List RItem) (rep : List Char) (s : List Char) :
    ∀ x ∈ subPat p rep s, x ∈ rep ∨ x ∈ s :=
  mem_subPatF p rep s.length s

theorem mem_pyStrip (l : List Char) : ∀ x ∈ pyStrip l, x ∈ l := by
  intro x hx
  unfold pyStrip at hx
  rw [List.mem_reverse] at hx
  have h1 := (List.dropWhile_sublist pyWs).mem hx
  rw [List.mem_reverse] at h1
  exact (List.dropWhile_sublist pyWs).mem h1

theorem escChar_no_special (c : Char) : ∀ x ∈ escChar c, htmlSpecial x = false := by
  intro x hx
  unfold escChar at hx
  split at hx
  · have h := List.all_eq_true.mp
      (show ("&amp;".data.all (fun d => !htmlSpecial d)) = true by decide) x hx
    simpa using h
  · split at hx
    · have h := List.all_eq_true.mp
        (show ("&lt;".data.all (fun d => !htmlSpecial d)) = true by decide) x hx
      simpa using h
    · split at hx
      · have h := List.all_eq_true.mp
          (show ("&gt;".data.all (fun d => !htmlSpecial d)) = true by decide) x hx
        simpa using h
      · split at hx
        · have h := List.all_eq_true.mp
            (show ("&quot;".data.all (fun d => !htmlSpecial d)) = true by decide) x hx
          simpa using h
        · split at hx
          · have h := List.all_eq_true.mp
              (show ("&#x27;".data.all (fun d => !htmlSpecial d)) = true by decide) x hx
            simpa using h
          · next h2 h3 h4 h5 =>
            rw [List.mem_singleton] at hx
            subst hx
            simp [htmlSpecial, h2, h3, h4, h5]

theorem htmlEscape_no_special (l : List Char) : ∀ x ∈ htmlEscape l, htmlSpecial x = false := by
  intro x hx
  unfold htmlEscape at hx
  rw [List.mem_flatten] at hx
  obtain ⟨piece, hp, hxp⟩ := hx
  rw [List.mem_map] at hp
  obtain ⟨c, hc, rfl⟩ := hp
  exact escChar_no_special c x hxp

theorem mem_foldSub (ps : List (List RItem)) :
    ∀ (l : List Char), ∀ x ∈ ps.foldl (fun acc p => subPat p filteredMarker acc) l,
      x ∈ filteredMarker ∨ x ∈ l := by
  induction ps with
  | nil => intro l x hx; exact Or.inr hx
  | cons p rest ih =>
    intro l x hx
    simp only [List.foldl_cons] at hx
    rcases ih _ x hx with h | h
    · exact Or.inl h
    · exact mem_subPat p filteredMarker l x h

theorem mem_replaceCRLF_aux :
    ∀ (n : Nat) (l : List Char), l.length = n → ∀ x ∈ replaceCRLF l, x ∈ l := by
  intro n
  induction n using Nat.strong_induction_on with
  | _ n ih =>
    intro l hn x hx
    match l with
    | [] => simpa [replaceCRLF] using hx
    | c :: rest =>
      rw [replaceCRLF.eq_def] at hx
      revert hx
      split
      · next heq =>
        simp at heq
      · next t heq =>
        intro hx
        rw [heq]
        have hlen : t.length < n := by
          have h2 := congrArg List.length heq
          simp at h2
          simp at hn
          omega
        simp only [List.mem_cons] at hx ⊢
        rcases hx with rfl | hx
        · simp
        · have hm := ih t.length hlen t rfl x hx
          simp [hm]
      · next x1 c2 rest2 hno heq =>
        intro hx
        rw [heq]
        have hlen : rest2.length < n := by
          have h2 := congrArg List.length heq
          simp at h2
          simp at hn
          omega
        simp only [List.mem_cons] at hx ⊢
        rcases hx with rfl | hx
        · simp
        · have hm := ih rest2.length hlen rest2 rfl x hx
          simp [hm]

theorem mem_replaceCRLF (l : List Char) : ∀ x ∈ replaceCRLF l, x ∈ l :=
  mem_replaceCRLF_aux l.length l rfl

/-- C10: in escaped mode (allow_html=True) the output of sanitize_text
contains no literal `<`, `>`, `\"` or `'` character: html.escape encodes them
before pattern filtering, and neither the `[FILTERED]` marker nor whitespace
collapsing reintroduces them. -/
theorem C10_escaped_mode_no_html_specials :
    ∀ (s : String), (sanitize_text s true).data.all (fun c => !(htmlSpecial c)) = true := by
  intro s
  rw [List.all_eq_true]
  intro x hx
  suffices h : htmlSpecial x = false by simp [h]
  have hx2 : x ∈ sanitizeList s.data true := by simpa [sanitize_text] using hx
  unfold sanitizeList at hx2
  dsimp only at hx2
  have hx3 := mem_pyStrip _ x hx2
  rcases mem_subPat wsPat [' '] _ x hx3 with h | h
  · rw [List.mem_singleton] at h
    subst h
    rfl
  · rcases mem_foldSub DANGEROUS_PATTERNS _ x h with h2 | h2
    · have hall := List.all_eq_true.mp
        (show (filteredMarker.all (fun d => !htmlSpecial d)) = true by decide) x h2
      simpa using hall
    · exact htmlEscape_no_special _ x h2

theorem wsIsolated_ws_space : ∀ (l : List Char), wsIsolated l = true →
    ∀ c ∈ l, pyWs c = true → c = ' ' := by
  intro l
  induction l with
  | nil => intro _ c hc; simp at hc
  | cons a t ih =>
    intro h c hc hws
    match t with
    | [] =>
      simp only [wsIsolated] at h
      simp at hc
      subst hc
      rcases Bool.or_eq_true_iff.mp h with h1 | h1
      · rw [hws] at h1; simp at h1
      · simpa using h1
    | b :: t2 =>
      simp only [wsIsolated, Bool.and_eq_true] at h
      rcases List.mem_cons.mp hc with rfl | hmem
      · rcases Bool.or_eq_true_iff.mp h.1.1 with h1 | h1
        · rw [hws] at h1; simp at h1
        · simpa using h1
      · exact ih h.2 c hmem hws

theorem wsIsolated_tail : ∀ (a : Char) (t : List Char),
    wsIsolated (a :: t) = true → wsIsolated t = true := by
  intro a t h
  match t with
  | [] => rfl
  | b :: t2 =>
    simp only [wsIsolated, Bool.and_eq_true] at h
    exact h.2

theorem subPat_id_of_no_match (p : List RItem) (rep : List Char) (l : List Char)
    (h : findMatchAux p l 0 = none) : subPat p rep l = l := by
  match l with
  | [] => rfl
  | c :: cs =>
    unfold subPat
    simp only [List.length_cons]
    rw [subPatF]
    rw [h]

theorem replaceCRLF_id_aux :
    ∀ (n : Nat) (l : List Char), l.length = n → '\r' ∉ l → replaceCRLF l = l := by
  intro n
  induction n using Nat.strong_induction_on with
  | _ n ih =>
    intro l hn hr
    match l with
    | [] => rfl
    | c :: rest =>
      rw [replaceCRLF.eq_def]
      split
      · next heq => simp at heq
      · next t heq =>
        exfalso
        apply hr
        rw [heq]
        simp
      · next x1 c2 rest2 hno heq =>
        injection heq with h1 h2
        subst h1
        subst h2
        rw [ih rest.length (by simp at hn; omega) rest rfl
          (fun hm => hr (List.mem_cons_of_mem _ hm))]

theorem replaceCRLF_id (l : List Char) (h : '\r' ∉ l) : replaceCRLF l = l :=
  replaceCRLF_id_aux l.length l rfl h

theorem htmlUnescapeF_id : ∀ (fuel : Nat) (l : List Char), '&' ∉ l → htmlUnescapeF fuel l = l := by
  intro fuel
  induction fuel with
  | zero => intro l _; cases l <;> rfl
  | succ n ih =>
    intro l ha
    match l with
    | [] => rfl
    | c :: rest =>
      have hc : ¬(c = '&') := fun he => ha (he ▸ List.mem_cons_self c rest)
      rw [htmlUnescapeF]
      rw [if_neg hc]
      rw [ih rest (fun hm => ha (List.mem_cons_of_mem _ hm))]

theorem htmlUnescape_id (l : List Char) (h : '&' ∉ l) : htmlUnescape l = l :=
  htmlUnescapeF_id l.length l h

theorem matchLens_nil_zero (p : List RItem) : ∀ n ∈ matchLens p [], n = 0 := by
  induction p with
  | nil => intro n hn; simpa [matchLens] using hn
  | cons it rest ih =>
    intro n hn
    match it with
    | .lit c => simp [matchLens] at hn
    | .one k => simp [matchLens] at hn
    | .star k =>
      have he : matchLens (RItem.star k :: rest) [] =
          ((matchLens rest []).map (· + 0)) := by
        simp [matchLens, greedyOffsets, runLen, List.range_succ]
      rw [he] at hn
      simp at hn
      exact ih n hn
    | .lazyStar k =>
      have he : matchLens (RItem.lazyStar k :: rest) [] =
          ((matchLens rest []).map (· + 0)) := by
        simp [matchLens, lazyOffsets, runLen, List.range_succ]
      rw [he] at hn
      simp at hn
      exact ih n hn

theorem findMatchAux_shift (p : List RItem) :
    ∀ (s : List Char) (pos : Nat),
      findMatchAux p s pos = (findMatchAux p s 0).map (fun r => (r.1 + pos, r.2)) := by
  intro s
  induction s with
  | nil =>
    intro pos
    rw [findMatchAux, findMatchAux]
    cases h : pyMatchLen p [] <;> simp
  | cons c t ih =>
    intro pos
    rw [findMatchAux, findMatchAux]
    cases h : pyMatchLen p (c :: t) with
    | some n => simp
    | none =>
      simp only
      rw [ih (pos + 1), ih 1]
      cases findMatchAux p t 0 with
      | none => simp
      | some r => simp; omega

theorem subPatF_fuel :
    ∀ (fuel : Nat) (p : List RItem) (rep : List Char) (s : List Char),
      s.length ≤ fuel → subPatF fuel p rep s = subPatF s.length p rep s := by
  intro fuel
  induction fuel using Nat.strong_induction_on with
  | _ fuel ih =>
    intro p rep s hlen
    match fuel, s with
    | 0, s =>
      have h0 : s.length = 0 := Nat.le_zero.mp hlen
      rw [h0]
    | fuel + 1, [] => rfl
    | fuel + 1, c :: cs =>
      rw [subPatF]
      simp only [List.length_cons]
      conv_rhs => rw [subPatF]
      cases hf : findMatchAux p (c :: cs) 0 with
      | none => rfl
      | some r =>
        obtain ⟨i, n⟩ := r
        by_cases hn : n = 0
        · simp [hn]
        · simp only [hn, if_false]
          have hlen2 : cs.length + 1 ≤ fuel + 1 := by simpa using hlen
          have hd : ((c :: cs).drop (i + n)).length ≤ fuel := by
            simp
            omega
          have hd2 : ((c :: cs).drop (i + n)).length ≤ cs.length := by
            simp
            omega
          rw [ih fuel (by omega) p rep _ hd]
          rw [ih cs.length (by omega) p rep _ hd2]

theorem subPat_cons_of_head_none (p : List RItem) (rep : List Char) (c : Char)
    (cs : List Char) (h : pyMatchLen p (c :: cs) = none) :
    subPat p rep (c :: cs) = c :: subPat p rep cs := by
  unfold subPat
  simp only [List.length_cons]
  rw [subPatF]
  rw [findMatchAux]
  rw [h]
  simp only
  rw [findMatchAux_shift p cs 1]
  cases hf : findMatchAux p cs 0 with
  | none =>
    dsimp only [Option.map]
    match cs with
    | [] => rfl
    | d :: t =>
      simp only [List.length_cons]
      rw [subPatF]
      rw [hf]
  | some r =>
    obtain ⟨i, n⟩ := r
    dsimp only [Option.map]
    by_cases hn : n = 0
    · subst hn
      simp only [if_pos]
      match cs with
      | [] => rfl
      | d :: t =>
        simp only [List.length_cons]
        rw [subPatF]
        rw [hf]
        simp
    · simp only [hn, if_false]
      match cs with
      | [] =>
        exfalso
        rw [findMatchAux] at hf
        cases hp : pyMatchLen p [] with
        | none => rw [hp] at hf; simp at hf
        | some m =>
          rw [hp] at hf
          simp at hf
          have hmem : m ∈ matchLens p [] := by
            have hh : (matchLens p []).head? = some m := hp
            exact List.mem_of_mem_head? (by rw [hh]; rfl)
          have hz := matchLens_nil_zero p m hmem
          omega
      | d :: t =>
        simp only [List.length_cons]
        conv_rhs => rw [subPatF]
        rw [hf]
        simp only [hn, if_false]
        have hdrop : (c :: d :: t).drop (i + 1 + n) = (d :: t).drop (i + n) := by
          have : i + 1 + n = (i + n) + 1 := by omega
          rw [this]
          rfl
        have htake : (c :: d :: t).take (i + 1) = c :: (d :: t).take i := rfl
        rw [htake, hdrop]
        simp only [List.cons_append]
        congr 2
        have hd1 : ((d :: t).drop (i + n)).length ≤ t.length + 1 := by
          simp
        have hd2 : ((d :: t).drop (i + n)).length ≤ t.length := by
          simp
          omega
        rw [subPatF_fuel (t.length + 1) p rep _ hd1]
        rw [subPatF_fuel t.length p rep _ hd2]

theorem pyMatchLen_wsPat_nonws (c : Char) (cs : List Char) (h : pyWs c = false) :
    pyMatchLen wsPat (c :: cs) = none := by
  simp [pyMatchLen, wsPat, plusC, matchLens, CClass.test, h]

theorem runLen_eq_zero (k : CClass) (cs : List Char)
    (h : ∀ d, cs.head? = some d → k.test d = false) : runLen k cs = 0 := by
  match cs with
  | [] => rfl
  | d :: t =>
    have hd := h d rfl
    simp [runLen, hd]

theorem pyMatchLen_wsPat_space (cs : List Char)
    (h : ∀ d, cs.head? = some d → pyWs d = false) :
    pyMatchLen wsPat (' ' :: cs) = some 1 := by
  have hrun : runLen CClass.wsC cs = 0 := runLen_eq_zero _ _ h
  simp [pyMatchLen, wsPat, plusC, matchLens, CClass.test, pyWs, greedyOffsets, hrun,
    List.range_succ]

theorem subPat_cons_of_head_one (p : List RItem) (rep : List Char) (c : Char)
    (cs : List Char) (h : pyMatchLen p (c :: cs) = some 1) :
    subPat p rep (c :: cs) = rep ++ subPat p rep cs := by
  unfold subPat
  simp only [List.length_cons]
  rw [subPatF]
  unfold findMatchAux
  rw [h]
  simp

theorem subPat_ws_id : ∀ (l : List Char), wsIsolated l = true →
    subPat wsPat [' '] l = l := by
  intro l
  induction l with
  | nil => intro _; rfl
  | cons c cs ih =>
    intro h
    have htail := wsIsolated_tail c cs h
    by_cases hws : pyWs c = true
    · have hc : c = ' ' := wsIsolated_ws_space _ h c (by simp) hws
      subst hc
      have hnext : ∀ d, cs.head? = some d → pyWs d = false := by
        intro d hd
        match cs with
        | [] => simp at hd
        | b :: t =>
          simp at hd
          subst hd
          simp only [wsIsolated, Bool.and_eq_true] at h
          have := h.1.2
          simp only [Bool.not_eq_true', Bool.and_eq_false_iff] at this
          rcases this with h1 | h1
          · rw [hws] at h1; simp at h1
          · exact h1
      rw [subPat_cons_of_head_one wsPat [' '] ' ' cs (pyMatchLen_wsPat_space cs hnext)]
      rw [ih htail]
      rfl
    · have hws2 : pyWs c = false := by simpa using hws
      rw [subPat_cons_of_head_none wsPat [' '] c cs (pyMatchLen_wsPat_nonws c cs hws2)]
      rw [ih htail]

theorem htmlEscape_id : ∀ (l : List Char),
    (∀ c ∈ l, c ≠ '&' ∧ htmlSpecial c = false) → htmlEscape l = l := by
  intro l
  induction l with
  | nil => intro _; rfl
  | cons c t ih =>
    intro h
    have hc := h c (by simp)
    have hspec := hc.2
    simp only [htmlSpecial, Bool.or_eq_false_iff, decide_eq_false_iff_not] at hspec
    have hesc : escChar c = [c] := by
      simp [escChar, hc.1, hspec.1.1.1, hspec.1.1.2, hspec.1.2, hspec.2]
    have ht := ih (fun x hx => h x (by simp [hx]))
    simp only [htmlEscape, List.map_cons, List.flatten_cons, hesc]
    simpa [htmlEscape] using ht

theorem foldl_subPat_id : ∀ (ps : List (List RItem)) (l : List Char),
    (∀ p ∈ ps, findMatchAux p l 0 = none) →
    ps.foldl (fun acc p => subPat p filteredMarker acc) l = l := by
  intro ps
  induction ps with
  | nil => intro l _; rfl
  | cons p t ih =>
    intro l h
    simp only [List.foldl_cons]
    rw [subPat_id_of_no_match p filteredMarker l (h p (by simp))]
    exact ih l (fun q hq => h q (by simp [hq]))

theorem dropWhile_pyWs_id (l : List Char) (h : pyWs (l.headD 'x') = false) :
    l.dropWhile pyWs = l := by
  match l with
  | [] => rfl
  | c :: t =>
    simp only [List.headD] at h
    simp [List.dropWhile, h]

theorem pyStrip_id (l : List Char) (h : noEdgeWs l = true) : pyStrip l = l := by
  simp only [noEdgeWs, Bool.and_eq_true, Bool.not_eq_true'] at h
  unfold pyStrip
  rw [dropWhile_pyWs_id l h.1]
  rw [dropWhile_pyWs_id l.reverse]
  · simp
  · match l with
    | [] => simpa using h.2
    | c :: t =>
      have : (c :: t).reverse.headD 'x' = (c :: t).getLastD 'x' := by
        simp [List.headD_eq_head?, List.head?_reverse, List.getLastD_eq_getLast?,
          List.getLast?_cons]
        cases t.getLast? <;> rfl
      rw [this]
      exact h.2

/-- C5 (amended): sanitize_text is NOT idempotent in general (see the
counterexample), but every string that is already in fully sanitized shape is
a fixed point of sanitize_text in both modes: no NUL byte, no ampersand, no
HTML-special character, whitespace occurring only as isolated single spaces
with none at either end, no tag-pattern match and no dangerous-pattern match.
On such strings a second application changes nothing. -/
theorem C5_sanitize_fixed_point (s : String) (mode : Bool)
    (hnul : Char.ofNat 0 ∉ s.data)
    (hamp : '&' ∉ s.data)
    (hspec : ∀ c ∈ s.data, htmlSpecial c = false)
    (hwi : wsIsolated s.data = true)
    (hedge : noEdgeWs s.data = true)
    (htag : findMatchAux tagPat s.data 0 = none)
    (hpat : ∀ p ∈ DANGEROUS_PATTERNS, findMatchAux p s.data 0 = none) :
    sanitize_text s mode = s := by
  obtain ⟨d⟩ := s
  have hcr : '\r' ∉ d := by
    intro hmem
    have := wsIsolated_ws_space d hwi '\r' hmem (by decide)
    simp at this
  have hfilter : d.filter (fun c => c ≠ Char.ofNat 0) = d := by
    apply List.filter_eq_self.mpr
    intro a ha
    simp only [ne_eq, decide_not, Bool.not_eq_eq_eq_not, Bool.not_true,
      decide_eq_false_iff_not]
    intro hEq
    exact hnul (hEq ▸ ha)
  unfold sanitize_text sanitizeList
  dsimp only
  rw [hfilter, replaceCRLF_id d hcr]
  have h2 : (if mode then htmlEscape d else htmlUnescape (subPat tagPat [] d)) = d := by
    cases mode with
    | true =>
      rw [if_pos rfl]
      exact htmlEscape_id d (fun c hc => ⟨fun hEq => hamp (hEq ▸ hc), hspec c hc⟩)
    | false =>
      rw [if_neg Bool.false_ne_true]
      rw [subPat_id_of_no_match tagPat [] d htag]
      exact htmlUnescape_id d hamp
  rw [h2, foldl_subPat_id DANGEROUS_PATTERNS d hpat, subPat_ws_id d hwi,
    pyStrip_id d hedge]

theorem C5_sanitize_fixed_point_witness :
    sanitize_text "hello world" true = "hello world" ∧
      sanitize_text "hello world" false = "hello world" :=
  ⟨C5_sanitize_fixed_point "hello world" true (by decide) (by decide) (by decide)
      (by decide) (by decide) (by decide) (by decide),
    C5_sanitize_fixed_point "hello world" false (by decide) (by decide) (by decide)
      (by decide) (by decide) (by decide) (by decide)⟩

theorem countP_ge_two (stop : List String) (pw : List String)
    (hlen : 2 ≤ pw.length)
    (hC : stop.contains (pw.headD "") = false)
    (hD : stop.contains (pw.getLastD "") = false) :
    2 ≤ pw.countP (fun w => !(stop.contains w)) := by
  match pw with
  | [] => simp at hlen
  | [a] => simp at hlen
  | a :: b :: t =>
    have hhead : (a :: b :: t).headD "" = a := rfl
    rw [hhead] at hC
    have hlast : (a :: b :: t).getLastD "" = (b :: t).getLast (by simp) := by
      simp [List.getLastD_eq_getLast?, List.getLast?_eq_getLast]
    rw [hlast] at hD
    have hmem : (b :: t).getLast (by simp) ∈ b :: t := List.getLast_mem (by simp)
    have hpos : 0 < (b :: t).countP (fun w => !(stop.contains w)) := by
      rw [List.countP_pos]
      exact ⟨_, hmem, by simpa using hD⟩
    have hC3 : a ∉ stop := by simpa using hC
    have : (a :: b :: t).countP (fun w => !(stop.contains w)) =
        (b :: t).countP (fun w => !(stop.contains w)) + 1 := by
      rw [List.countP_cons]
      simp [hC3]
    omega

theorem spanOk_eq_spanOkClaim (kw stop : List String) (pw : List String) (len : Nat)
    (hlen : pw.length = len) (h2 : 2 ≤ len) (h4 : len ≤ 4) :
    spanOk kw stop pw len = spanOkClaim kw stop pw len := by
  unfold spanOk spanOkClaim
  by_cases hC : pw.head?.getD "" ∈ stop
  · simp [hC]
  · by_cases hD : pw.getLast?.getD "" ∈ stop
    · simp [hD]
    · have hC2 : stop.contains (pw.headD "") = false := by simpa using hC
      have hD2 : stop.contains (pw.getLastD "") = false := by simpa using hD
      have hcnt := countP_ge_two stop pw (by omega) hC2 hD2
      have hcnt2 : 2 ≤ pw.countP (fun w => !decide (w ∈ stop)) := by
        simpa using hcnt
      have hB1 : ∃ a ∈ pw, a ∉ stop := by
        have hpos : 0 < pw.countP (fun w => !(stop.contains w)) := by omega
        rw [List.countP_pos] at hpos
        obtain ⟨a, ha, hpa⟩ := hpos
        exact ⟨a, ha, by simpa using hpa⟩
      have e1 : len / 2 ≤ pw.countP (fun w => !decide (w ∈ stop)) := by omega
      have e2 : (len + 1) / 2 ≤ pw.countP (fun w => !decide (w ∈ stop)) := by omega
      simp [hC, hD, hB1, e1, e2]

theorem mem_poolAddSpan (kw stop : List String) (ws : List String)
    (acc : List String) (il : Nat × Nat) (ph : String) :
    ph ∈ poolAddSpan kw stop ws acc il ↔
      ph ∈ acc ∨ (spanOk kw stop ((ws.drop il.1).take il.2) il.2 = true ∧
        8 < (String.intercalate " " ((ws.drop il.1).take il.2)).length ∧
        ph = String.intercalate " " ((ws.drop il.1).take il.2)) := by
  unfold poolAddSpan
  dsimp only
  split
  next h =>
    simp only [Bool.and_eq_true, Bool.not_eq_true'] at h
    constructor
    · intro hm
      rcases List.mem_append.mp hm with hm | hm
      · exact Or.inl hm
      · simp at hm
        exact Or.inr ⟨h.1.1, by simpa using h.1.2, hm⟩
    · rintro (hm | ⟨_, _, rfl⟩)
      · exact List.mem_append.mpr (Or.inl hm)
      · exact List.mem_append.mpr (Or.inr (by simp))
  next h =>
    simp only [Bool.and_eq_true, Bool.not_eq_true', not_and] at h
    constructor
    · exact Or.inl
    · rintro (hm | ⟨h1, h2, rfl⟩)
      · exact hm
      · have := h ⟨h1, by simpa using h2⟩
        simpa using this

theorem mem_foldl_poolAddSpan (kw stop : List String) (ws : List String) (ph : String) :
    ∀ (ils : List (Nat × Nat)) (acc : List String),
    ph ∈ ils.foldl (poolAddSpan kw stop ws) acc ↔
      ph ∈ acc ∨ ∃ il ∈ ils, spanOk kw stop ((ws.drop il.1).take il.2) il.2 = true ∧
        8 < (String.intercalate " " ((ws.drop il.1).take il.2)).length ∧
        ph = String.intercalate " " ((ws.drop il.1).take il.2) := by
  intro ils
  induction ils with
  | nil => intro acc; simp
  | cons il rest ih =>
    intro acc
    simp only [List.foldl_cons]
    rw [ih]
    rw [mem_poolAddSpan]
    constructor
    · rintro ((hm | hc) | ⟨il2, hil2, hc⟩)
      · exact Or.inl hm
      · exact Or.inr ⟨il, by simp, hc⟩
      · exact Or.inr ⟨il2, by simp [hil2], hc⟩
    · rintro (hm | ⟨il2, hil2, hc⟩)
      · exact Or.inl (Or.inl hm)
      · rcases List.mem_cons.mp hil2 with rfl | hil2
        · exact Or.inl (Or.inr hc)
        · exact Or.inr ⟨il2, hil2, hc⟩

theorem mem_phrasePool_aux (kw stop : List String) (ph : String) :
    ∀ (sl : List (List String)) (acc : List String),
    ph ∈ sl.foldl (fun acc ws => (spanIdxs ws.length).foldl (poolAddSpan kw stop ws) acc) acc ↔
      ph ∈ acc ∨ ∃ ws ∈ sl, ∃ il ∈ spanIdxs ws.length,
        spanOk kw stop ((ws.drop il.1).take il.2) il.2 = true ∧
        8 < (String.intercalate " " ((ws.drop il.1).take il.2)).length ∧
        ph = String.intercalate " " ((ws.drop il.1).take il.2) := by
  intro sl
  induction sl with
  | nil => intro acc; simp
  | cons ws rest ih =>
    intro acc
    simp only [List.foldl_cons]
    rw [ih]
    rw [mem_foldl_poolAddSpan]
    constructor
    · rintro ((hm | ⟨il, hil, hc⟩) | ⟨ws2, hws2, hc⟩)
      · exact Or.inl hm
      · exact Or.inr ⟨ws, by simp, il, hil, hc⟩
      · exact Or.inr ⟨ws2, by simp [hws2], hc⟩
    · rintro (hm | ⟨ws2, hws2, hc⟩)
      · exact Or.inl (Or.inl hm)
      · rcases List.mem_cons.mp hws2 with rfl | hws2
        · exact Or.inl (Or.inr hc)
        · exact Or.inr ⟨ws2, hws2, hc⟩

theorem mem_spanIdxs (n : Nat) (il : Nat × Nat) (h : il ∈ spanIdxs n) :
    2 ≤ il.2 ∧ il.2 ≤ 4 ∧ il.1 + il.2 ≤ n := by
  unfold spanIdxs at h
  simp only [List.mem_flatten, List.mem_map] at h
  obtain ⟨ll, ⟨i, hi, rfl⟩, hmem⟩ := h
  simp only [List.mem_filterMap] at hmem
  obtain ⟨len, hlen, hif⟩ := hmem
  by_cases hle : i + len ≤ n
  · rw [if_pos hle] at hif
    obtain rfl := Option.some_injective _ hif
    simp at hlen
    rcases hlen with rfl | rfl | rfl <;> simp <;> omega
  · rw [if_neg hle] at hif
    simp at hif

/-- C4 (amended): a string enters the candidate-phrase pool of
extract_key_phrases iff it is longer than 8 characters and is the
space-joined form of a contiguous span of 2-4 tokens of a qualifying
sentence (trimmed length at least 20) satisfying the claim's three
conditions: a top-20 keyword among the tokens, at least ceil(len/2)
non-stop tokens, and non-stop first and last tokens.  The original claim
omitted the 8-character threshold (see the counterexample); its
ceil(len/2) threshold and the code's max(1, len // 2) coincide on the
reachable spans because the end-token conditions already force at least
two non-stop tokens. -/
theorem C4_candidate_acceptance (text : String) (ph : String) :
    ph ∈ phrasePool (extract_keywords text 20) get_extended_stop_words text ↔
      8 < ph.length ∧ ∃ ws ∈ qualSentenceTok text, ∃ il ∈ spanIdxs ws.length,
        spanOkClaim (extract_keywords text 20) get_extended_stop_words
          ((ws.drop il.1).take il.2) il.2 = true ∧
        ph = String.intercalate " " ((ws.drop il.1).take il.2) := by
  unfold phrasePool
  rw [mem_phrasePool_aux]
  simp only [List.not_mem_nil, false_or]
  constructor
  · rintro ⟨ws, hws, il, hil, hok, hlen, rfl⟩
    obtain ⟨hA, hB, hCn⟩ := mem_spanIdxs _ _ hil
    have hl : ((ws.drop il.1).take il.2).length = il.2 := by
      simp only [List.length_take, List.length_drop]
      omega
    rw [spanOk_eq_spanOkClaim _ _ _ _ hl hA hB] at hok
    exact ⟨hlen, ws, hws, il, hil, hok, rfl⟩
  · rintro ⟨hlen, ws, hws, il, hil, hok, rfl⟩
    obtain ⟨hA, hB, hCn⟩ := mem_spanIdxs _ _ hil
    have hl : ((ws.drop il.1).take il.2).length = il.2 := by
      simp only [List.length_take, List.length_drop]
      omega
    rw [← spanOk_eq_spanOkClaim _ _ _ _ hl hA hB] at hok
    exact ⟨ws, hws, il, hil, hok, hlen, rfl⟩

theorem dedupFSAux_length_le (l : List String) :
    ∀ (seen : List String), (dedupFSAux seen l).length ≤ l.length := by
  induction l with
  | nil => intro seen; simp [dedupFSAux]
  | cons a t ih =>
    intro seen
    unfold dedupFSAux
    split
    · exact Nat.le_trans (ih seen) (by simp)
    · simpa using ih (seen ++ [a])

/-- C7 (amended): extract_keywords is deterministic up to the iteration order
of the fallback set.  The main branch (at least 10 surviving tokens) never
consults the set order, and in the fallback branch the deduplicated token
list is shorter than 10, so with max_keywords at least 10 the take is the
whole set and any two hash-seed iteration orders (modelled as arbitrary
permutation-valid enumeration functions) yield outputs that are permutations
of each other.  The output order itself, however, depends on the enumeration
(see the counterexample), so the claim's demand of one fixed output list is
false. -/
theorem C7_keywords_order_perm (ord1 ord2 : List String → List String)
    (text : String) (mk : Nat)
    (h1 : ∀ l, (ord1 l).Perm l) (h2 : ∀ l, (ord2 l).Perm l) (hmk : 10 ≤ mk) :
    (extract_keywords_with ord1 text mk).Perm (extract_keywords_with ord2 text mk) := by
  unfold extract_keywords_with
  split
  · exact List.Perm.refl _
  · dsimp only
    split
    next hshort =>
      have hd : (dedupFS (preprocess_text text get_extended_stop_words)).length < 10 := by
        have := dedupFSAux_length_le (preprocess_text text get_extended_stop_words) []
        unfold dedupFS
        omega
      have e1 : (ord1 (dedupFS (preprocess_text text get_extended_stop_words))).take mk =
          ord1 (dedupFS (preprocess_text text get_extended_stop_words)) := by
        apply List.take_of_length_le
        rw [(h1 _).length_eq]
        omega
      have e2 : (ord2 (dedupFS (preprocess_text text get_extended_stop_words))).take mk =
          ord2 (dedupFS (preprocess_text text get_extended_stop_words)) := by
        apply List.take_of_length_le
        rw [(h2 _).length_eq]
        omega
      rw [e1, e2]
      exact (h1 _).trans (h2 _).symm
    · exact List.Perm.refl _

theorem C7_keywords_order_perm_witness :
    (extract_keywords_with (fun l => l) "x" 15).Perm
      (extract_keywords_with (fun l => l.reverse) "x" 15) :=
  C7_keywords_order_perm (fun l => l) (fun l => l.reverse) "x" 15
    (fun l => List.Perm.refl l) (fun l => List.reverse_perm l) (by decide)
